import Mathlib

/-!
Verification of the statistical betting model in modelos_estatisticos.py
(class ModelosEstatisticos; modelo_de_analise.py lines 18-218 carry a
textually identical copy of the same class).  Real numbers stand for the
Python floats of the source, so floating-point rounding is idealized away;
everything else follows the source line by line.
-/

namespace ModelosEstatisticos

/-- scipy.stats.poisson.pmf: P(k; lam) = lam^k * exp(-lam) / k!. -/
noncomputable def poissonPmf (lam : ℝ) (k : ℕ) : ℝ :=
  lam ^ k * Real.exp (-lam) / (Nat.factorial k : ℝ)

/-- Python range(max_gols + 1) has (max_gols + 1).toNat elements
(empty when max_gols is negative). -/
def nVals (maxGols : ℤ) : ℕ := (maxGols + 1).toNat

/-- Key-insertion order of the probability dict built by the double loop:
i outer, j inner. -/
def chaves (maxGols : ℤ) : List (ℕ × ℕ) :=
  (List.range (nVals maxGols)).flatMap
    (fun i => (List.range (nVals maxGols)).map (fun j => (i, j)))

/-- One pre-normalization cell mass of calcular_probabilidades_poisson. -/
noncomputable def poissonRaw (a b : ℝ) (ij : ℕ × ℕ) : ℝ :=
  poissonPmf a ij.1 * poissonPmf b ij.2

/-- The accumulator total_prob of calcular_probabilidades_poisson after the
double loop. -/
noncomputable def poissonTotal (a b : ℝ) (N : ℤ) : ℝ :=
  ∑ i ∈ Finset.range (nVals N), ∑ j ∈ Finset.range (nVals N), poissonRaw a b (i, j)

/-- The dict returned by calcular_probabilidades_poisson, as the map sending a
scoreline key to its stored (normalized) value. -/
noncomputable def calcular_probabilidades_poisson (a b : ℝ) (N : ℤ) (ij : ℕ × ℕ) : ℝ :=
  poissonRaw a b ij / poissonTotal a b N

/-- The inner helper tau(x, y, lambda_x, lambda_y, rho) of
calcular_probabilidades_dixon_coles. -/
def tau (x y : ℕ) (lx ly rho : ℝ) : ℝ :=
  if x = 0 ∧ y = 0 then 1 - lx * ly * rho
  else if x = 0 ∧ y = 1 then 1 + lx * rho
  else if x = 1 ∧ y = 0 then 1 + ly * rho
  else if x = 1 ∧ y = 1 then 1 - rho
  else 1

/-- One pre-normalization cell mass of calcular_probabilidades_dixon_coles:
poisson.pmf(i, lambda_casa) * poisson.pmf(j, lambda_visitante) * tau(i, j, ...). -/
noncomputable def dcRaw (a b rho : ℝ) (ij : ℕ × ℕ) : ℝ :=
  poissonPmf a ij.1 * poissonPmf b ij.2 * tau ij.1 ij.2 a b rho

/-- The accumulator total_prob of calcular_probabilidades_dixon_coles. -/
noncomputable def dcTotal (a b rho : ℝ) (N : ℤ) : ℝ :=
  ∑ i ∈ Finset.range (nVals N), ∑ j ∈ Finset.range (nVals N), dcRaw a b rho (i, j)

/-- The dict returned by calcular_probabilidades_dixon_coles, as the map
sending a scoreline key to its stored (normalized) value. -/
noncomputable def calcular_probabilidades_dixon_coles (a b rho : ℝ) (N : ℤ) (ij : ℕ × ℕ) : ℝ :=
  dcRaw a b rho ij / dcTotal a b rho N

/-- calcular_valor_esperado: probabilidade * odd - 1. -/
noncomputable def calcular_valor_esperado (probabilidade odd : ℝ) : ℝ :=
  probabilidade * odd - 1

/-- calcular_kelly: with q = 1 - probabilidade and b = odd - 1, return
(b * probabilidade - q) / b * fracao when b * probabilidade > q, else 0.
The copy in modelo_de_analise.py lines 198-218 is textually identical. -/
noncomputable def calcular_kelly (probabilidade odd fracao : ℝ) : ℝ :=
  let q := 1 - probabilidade
  let b := odd - 1
  if b * probabilidade > q then (b * probabilidade - q) / b * fracao else 0

/-! Basic facts about the embedded definitions. -/

lemma tau_zero_zero (lx ly rho : ℝ) : tau 0 0 lx ly rho = 1 - lx * ly * rho := by
  simp [tau]

lemma tau_zero_one (lx ly rho : ℝ) : tau 0 1 lx ly rho = 1 + lx * rho := by
  simp [tau]

lemma tau_one_zero (lx ly rho : ℝ) : tau 1 0 lx ly rho = 1 + ly * rho := by
  simp [tau]

lemma tau_one_one (lx ly rho : ℝ) : tau 1 1 lx ly rho = 1 - rho := by
  simp [tau]

lemma tau_big (x y : ℕ) (lx ly rho : ℝ) (h : 2 ≤ x ∨ 2 ≤ y) :
    tau x y lx ly rho = 1 := by
  unfold tau
  split_ifs with h1 h2 h3 h4
  · omega
  · omega
  · omega
  · omega
  · rfl

lemma tau_rho_zero (x y : ℕ) (lx ly : ℝ) : tau x y lx ly 0 = 1 := by
  unfold tau
  split_ifs <;> ring

lemma poissonPmf_pos (lam : ℝ) (h : 0 < lam) (k : ℕ) : 0 < poissonPmf lam k := by
  unfold poissonPmf
  apply div_pos (mul_pos (pow_pos h k) (Real.exp_pos _))
  exact_mod_cast Nat.factorial_pos k

lemma nVals_pos (N : ℤ) (hN : 0 ≤ N) : 0 < nVals N := by
  unfold nVals; omega

lemma poissonTotal_pos (a b : ℝ) (N : ℤ) (ha : 0 < a) (hb : 0 < b) (hN : 0 ≤ N) :
    0 < poissonTotal a b N := by
  unfold poissonTotal
  have hne : (Finset.range (nVals N)).Nonempty :=
    ⟨0, Finset.mem_range.mpr (nVals_pos N hN)⟩
  refine Finset.sum_pos (fun i _ => ?_) hne
  refine Finset.sum_pos (fun j _ => ?_) hne
  exact mul_pos (poissonPmf_pos a ha i) (poissonPmf_pos b hb j)

/-- For max_gols at least 1 the Dixon-Coles tau correction is exactly
mass-preserving over the truncated grid: the four corrected cells cancel. -/
lemma dcTotal_eq_poissonTotal (a b rho : ℝ) (N : ℤ) (hN : 1 ≤ N) :
    dcTotal a b rho N = poissonTotal a b N := by
  have hm : 2 ≤ nVals N := by unfold nVals; omega
  unfold dcTotal poissonTotal
  have key : ∀ i j : ℕ, dcRaw a b rho (i, j)
      = poissonRaw a b (i, j) + poissonRaw a b (i, j) * (tau i j a b rho - 1) := by
    intro i j
    unfold dcRaw poissonRaw
    ring
  simp only [key, Finset.sum_add_distrib]
  have hzero : (∑ i ∈ Finset.range (nVals N), ∑ j ∈ Finset.range (nVals N),
      poissonRaw a b (i, j) * (tau i j a b rho - 1)) = 0 := by
    have hsub : Finset.range 2 ⊆ Finset.range (nVals N) := Finset.range_subset.mpr hm
    have houter : (∑ i ∈ Finset.range (nVals N), ∑ j ∈ Finset.range (nVals N),
        poissonRaw a b (i, j) * (tau i j a b rho - 1))
        = ∑ i ∈ Finset.range 2, ∑ j ∈ Finset.range (nVals N),
            poissonRaw a b (i, j) * (tau i j a b rho - 1) := by
      refine (Finset.sum_subset hsub ?_).symm
      intro i _ hi2
      refine Finset.sum_eq_zero (fun j _ => ?_)
      rw [tau_big i j a b rho (Or.inl (by simp at hi2; omega))]
      ring
    have hinner : ∀ i ∈ Finset.range 2, (∑ j ∈ Finset.range (nVals N),
        poissonRaw a b (i, j) * (tau i j a b rho - 1))
        = ∑ j ∈ Finset.range 2, poissonRaw a b (i, j) * (tau i j a b rho - 1) := by
      intro i _
      refine (Finset.sum_subset hsub ?_).symm
      intro j _ hj2
      rw [tau_big i j a b rho (Or.inr (by simp at hj2; omega))]
      ring
    rw [houter, Finset.sum_congr rfl hinner]
    simp only [Finset.sum_range_succ, Finset.sum_range_zero]
    rw [tau_zero_zero, tau_zero_one, tau_one_zero, tau_one_one]
    unfold poissonRaw poissonPmf
    simp only [pow_zero, pow_one, Nat.factorial_zero, Nat.factorial_one, Nat.cast_one]
    ring
  rw [hzero, add_zero]

/-- Sum of the normalized cells equals 1 whenever the accumulated total is
nonzero. -/
lemma soma_normalizada (m : ℕ) (f : ℕ → ℕ → ℝ)
    (h : (∑ i ∈ Finset.range m, ∑ j ∈ Finset.range m, f i j) ≠ 0) :
    ∑ i ∈ Finset.range m, ∑ j ∈ Finset.range m,
      f i j / (∑ i ∈ Finset.range m, ∑ j ∈ Finset.range m, f i j) = 1 := by
  simp only [← Finset.sum_div]
  exact div_self h

/-- C2: each pre-normalization Dixon-Coles cell mass is the independent
Poisson product multiplied by tau, with tau(0,0) = 1 - a*b*rho,
tau(0,1) = 1 + a*rho, tau(1,0) = 1 + b*rho, tau(1,1) = 1 - rho, and
tau(i,j) = 1 for every cell outside the 2x2 low-score corner. -/
theorem C2_theorem (a b rho : ℝ) (i j : ℕ) :
    dcRaw a b rho (0, 0) = poissonPmf a 0 * poissonPmf b 0 * (1 - a * b * rho) ∧
    dcRaw a b rho (0, 1) = poissonPmf a 0 * poissonPmf b 1 * (1 + a * rho) ∧
    dcRaw a b rho (1, 0) = poissonPmf a 1 * poissonPmf b 0 * (1 + b * rho) ∧
    dcRaw a b rho (1, 1) = poissonPmf a 1 * poissonPmf b 1 * (1 - rho) ∧
    (2 ≤ i ∨ 2 ≤ j → dcRaw a b rho (i, j) = poissonPmf a i * poissonPmf b j) := by
  refine ⟨?_, ?_, ?_, ?_, ?_⟩
  · unfold dcRaw; rw [tau_zero_zero]
  · unfold dcRaw; rw [tau_zero_one]
  · unfold dcRaw; rw [tau_one_zero]
  · unfold dcRaw; rw [tau_one_one]
  · intro h
    unfold dcRaw
    rw [tau_big i j a b rho h, mul_one]

/-- Witness for C2 at a concrete cell outside the corrected corner. -/
theorem C2_witness :
    dcRaw 1 1 1 (2, 0) = poissonPmf 1 2 * poissonPmf 1 0 :=
  (C2_theorem 1 1 1 2 0).2.2.2.2 (by norm_num)

/-- C5: with rho = 0 every tau factor is 1, so the Dixon-Coles distribution
coincides with the independent Poisson distribution cell by cell. -/
theorem C5_theorem (a b : ℝ) (N : ℤ) (ha : 0 < a) (hb : 0 < b) (i j : ℕ) :
    calcular_probabilidades_dixon_coles a b 0 N (i, j)
      = calcular_probabilidades_poisson a b N (i, j) := by
  have hraw : ∀ x y : ℕ, dcRaw a b 0 (x, y) = poissonRaw a b (x, y) := by
    intro x y
    unfold dcRaw poissonRaw
    rw [tau_rho_zero, mul_one]
  have htot : dcTotal a b 0 N = poissonTotal a b N := by
    unfold dcTotal poissonTotal
    exact Finset.sum_congr rfl (fun x _ => Finset.sum_congr rfl (fun y _ => hraw x y))
  unfold calcular_probabilidades_dixon_coles calcular_probabilidades_poisson
  rw [hraw i j, htot]

/-- Witness for C5 at lambda_home = lambda_away = 1, max_goals = 5, cell (0,0). -/
theorem C5_witness :
    calcular_probabilidades_dixon_coles 1 1 0 5 (0, 0)
      = calcular_probabilidades_poisson 1 1 5 (0, 0) :=
  C5_theorem 1 1 5 (by norm_num) (by norm_num) 0 0

/-- C6 counterexample: the claim asserts calcular_kelly(0.6, 2.5) equals
0.2/1.5; the code returns (1.5*0.6 - 0.4)/1.5 = 0.5/1.5 = 1/3. -/
theorem C6_counterexample : calcular_kelly 0.6 2.5 1 ≠ 0.2 / 1.5 := by
  unfold calcular_kelly
  rw [if_pos (by norm_num)]
  norm_num

/-- C6 amended: expected_value(0.5, 2.0) = 0, kelly(0.5, 2.0) = 0 (the edge
condition is strict, so a zero edge returns 0), and kelly(0.6, 2.5) is
positive and equals ((2.5-1)*0.6 - (1-0.6))/(2.5-1) = 0.5/1.5 = 1/3. -/
theorem C6_theorem :
    calcular_valor_esperado 0.5 2 = 0 ∧
    calcular_kelly 0.5 2 1 = 0 ∧
    0 < calcular_kelly 0.6 2.5 1 ∧
    calcular_kelly 0.6 2.5 1 = ((2.5 - 1) * 0.6 - (1 - 0.6)) / (2.5 - 1) := by
  refine ⟨?_, ?_, ?_, ?_⟩
  · unfold calcular_valor_esperado; norm_num
  · unfold calcular_kelly
    rw [if_neg (by norm_num)]
  · unfold calcular_kelly
    rw [if_pos (by norm_num)]
    norm_num
  · unfold calcular_kelly
    rw [if_pos (by norm_num)]
    norm_num

/-- C9: the independent Poisson distribution is symmetric under swapping the
two rates together with transposing the scoreline. -/
theorem C9_theorem (a b : ℝ) (N : ℤ) (i j : ℕ) :
    calcular_probabilidades_poisson a b N (i, j)
      = calcular_probabilidades_poisson b a N (j, i) := by
  have htot : poissonTotal a b N = poissonTotal b a N := by
    unfold poissonTotal poissonRaw
    rw [Finset.sum_comm]
    exact Finset.sum_congr rfl (fun x _ => Finset.sum_congr rfl
      (fun y _ => mul_comm _ _))
  unfold calcular_probabilidades_poisson
  rw [htot]
  congr 1
  unfold poissonRaw
  exact mul_comm _ _

/-- C10: the Kelly branch that divides by b = odd - 1 is reached only when
b * p > 1 - p, which for p in [0,1] forces b > 0; the returned stake always
lies in [0, 1] for fracao in [0, 1]. -/
theorem C10_theorem (p odd f : ℝ) (hp0 : 0 ≤ p) (hp1 : p ≤ 1)
    (hf0 : 0 ≤ f) (hf1 : f ≤ 1) :
    ((1 - p < (odd - 1) * p) → 0 < odd - 1) ∧
    0 ≤ calcular_kelly p odd f ∧ calcular_kelly p odd f ≤ 1 := by
  have hb : (1 - p < (odd - 1) * p) → 0 < odd - 1 := by
    intro hlt
    have hq : (0 : ℝ) ≤ 1 - p := by linarith
    have hbp : 0 < (odd - 1) * p := lt_of_le_of_lt hq hlt
    rcases mul_pos_iff.mp hbp with ⟨h1, _⟩ | ⟨_, h2⟩
    · exact h1
    · linarith
  refine ⟨hb, ?_, ?_⟩
  · simp only [calcular_kelly]
    split_ifs with hcond
    · have hbpos := hb hcond
      have hnum : 0 < (odd - 1) * p - (1 - p) := by linarith
      exact mul_nonneg (le_of_lt (div_pos hnum hbpos)) hf0
    · exact le_refl 0
  · simp only [calcular_kelly]
    split_ifs with hcond
    · have hbpos := hb hcond
      have hk1 : ((odd - 1) * p - (1 - p)) / (odd - 1) ≤ 1 := by
        rw [div_le_one hbpos]
        nlinarith
      have hk0 : 0 ≤ ((odd - 1) * p - (1 - p)) / (odd - 1) := by
        have hnum : 0 < (odd - 1) * p - (1 - p) := by linarith
        exact le_of_lt (div_pos hnum hbpos)
      calc ((odd - 1) * p - (1 - p)) / (odd - 1) * f
          ≤ ((odd - 1) * p - (1 - p)) / (odd - 1) * 1 := by
            exact mul_le_mul_of_nonneg_left hf1 hk0
        _ ≤ 1 := by rw [mul_one]; exact hk1
    · norm_num

/-- Witness for C10 at p = 0.6, odd = 2.5, fracao = 0.5. -/
theorem C10_witness :
    ((1 - 0.6 < ((2.5 : ℝ) - 1) * 0.6) → 0 < (2.5 : ℝ) - 1) ∧
    0 ≤ calcular_kelly 0.6 2.5 0.5 ∧ calcular_kelly 0.6 2.5 0.5 ≤ 1 :=
  C10_theorem 0.6 2.5 0.5 (by norm_num) (by norm_num) (by norm_num) (by norm_num)

/-- C1 counterexample: at lambda_home = lambda_away = 1, rho = 1 and
max_goals = 0 the single computed Dixon-Coles cell has mass
exp(-2) * (1 - 1*1*1) = 0, so the accumulated total is 0 and the
"normalized" values do not sum to anything near 1 (the Python code divides
0.0 by 0.0 there). -/
theorem C1_counterexample :
    ¬ (|(∑ i ∈ Finset.range (nVals 0), ∑ j ∈ Finset.range (nVals 0),
        calcular_probabilidades_dixon_coles 1 1 1 0 (i, j)) - 1| ≤ 1e-9) := by
  have hval : (∑ i ∈ Finset.range (nVals 0), ∑ j ∈ Finset.range (nVals 0),
      calcular_probabilidades_dixon_coles 1 1 1 0 (i, j)) = 0 := by
    have h1 : nVals 0 = 1 := rfl
    rw [h1]
    simp only [Finset.sum_range_one]
    unfold calcular_probabilidades_dixon_coles dcRaw
    rw [tau_zero_zero]
    norm_num
  rw [hval]
  norm_num

/-- C1 amended: the independent Poisson cells always sum to 1 for positive
rates and max_goals at least 0; the Dixon-Coles cells sum to 1 whenever in
addition max_goals is at least 1 (the tau correction preserves the
accumulated total there) or lambda_home*lambda_away*rho is not 1 (so the
single cell of a max_goals = 0 grid has nonzero mass). -/
theorem C1_theorem :
    (∀ (a b : ℝ) (N : ℤ), 0 < a → 0 < b → 0 ≤ N →
      |(∑ i ∈ Finset.range (nVals N), ∑ j ∈ Finset.range (nVals N),
          calcular_probabilidades_poisson a b N (i, j)) - 1| ≤ 1e-9) ∧
    (∀ (a b rho : ℝ) (N : ℤ), 0 < a → 0 < b → 0 ≤ N →
      (1 ≤ N ∨ a * b * rho ≠ 1) →
      |(∑ i ∈ Finset.range (nVals N), ∑ j ∈ Finset.range (nVals N),
          calcular_probabilidades_dixon_coles a b rho N (i, j)) - 1| ≤ 1e-9) := by
  constructor
  · intro a b N ha hb hN
    have h1 : (∑ i ∈ Finset.range (nVals N), ∑ j ∈ Finset.range (nVals N),
        calcular_probabilidades_poisson a b N (i, j)) = 1 := by
      unfold calcular_probabilidades_poisson poissonTotal
      exact soma_normalizada (nVals N) (fun i j => poissonRaw a b (i, j))
        (ne_of_gt (by
          have := poissonTotal_pos a b N ha hb hN
          unfold poissonTotal at this
          exact this))
    rw [h1]
    norm_num
  · intro a b rho N ha hb hN hok
    have htne : dcTotal a b rho N ≠ 0 := by
      rcases le_or_lt 1 N with hN1 | hN1
      · rw [dcTotal_eq_poissonTotal a b rho N hN1]
        exact ne_of_gt (poissonTotal_pos a b N ha hb hN)
      · have hN0 : N = 0 := by omega
        subst hN0
        have hne : a * b * rho ≠ 1 := by
          rcases hok with h | h
          · omega
          · exact h
        unfold dcTotal
        have h1 : nVals 0 = 1 := rfl
        rw [h1]
        simp only [Finset.sum_range_one]
        unfold dcRaw
        rw [tau_zero_zero]
        refine mul_ne_zero (mul_ne_zero ?_ ?_) ?_
        · exact ne_of_gt (poissonPmf_pos a ha 0)
        · exact ne_of_gt (poissonPmf_pos b hb 0)
        · exact sub_ne_zero_of_ne (Ne.symm hne)
    have h1 : (∑ i ∈ Finset.range (nVals N), ∑ j ∈ Finset.range (nVals N),
        calcular_probabilidades_dixon_coles a b rho N (i, j)) = 1 := by
      unfold calcular_probabilidades_dixon_coles
      unfold dcTotal at htne ⊢
      exact soma_normalizada (nVals N) (fun i j => dcRaw a b rho (i, j)) htne
    rw [h1]
    norm_num

/-- Witness for C1 at lambda_home = lambda_away = 1, max_goals = 5,
rho = -0.1 (the source default). -/
theorem C1_witness :
    |(∑ i ∈ Finset.range (nVals 5), ∑ j ∈ Finset.range (nVals 5),
        calcular_probabilidades_poisson 1 1 5 (i, j)) - 1| ≤ 1e-9 ∧
    |(∑ i ∈ Finset.range (nVals 5), ∑ j ∈ Finset.range (nVals 5),
        calcular_probabilidades_dixon_coles 1 1 (-(1/10)) 5 (i, j)) - 1| ≤ 1e-9 :=
  ⟨C1_theorem.1 1 1 5 (by norm_num) (by norm_num) (by norm_num),
   C1_theorem.2 1 1 (-(1/10)) 5 (by norm_num) (by norm_num) (by norm_num)
     (Or.inl (by norm_num))⟩

/-- C3 counterexample: lambda_home = 0 violates the claimed precondition
lambda_home > 0, yet calcular_probabilidades_poisson returns an ordinary
normalized mapping (here the single cell of a max_goals = 0 grid carries
probability 1) instead of failing with InvalidParameter; the source contains
no validation and no raise statement at all. -/
theorem C3_counterexample : calcular_probabilidades_poisson 0 1 0 (0, 0) = 1 := by
  unfold calcular_probabilidades_poisson poissonTotal
  have h1 : nVals 0 = 1 := rfl
  rw [h1]
  simp only [Finset.sum_range_one]
  apply div_self
  unfold poissonRaw
  apply mul_ne_zero
  · simp [poissonPmf, Real.exp_zero]
  · exact ne_of_gt (poissonPmf_pos 1 (by norm_num) 0)

/-- C3 amended: the distribution builders perform no precondition validation
and never raise: for negative max_goals the loops run zero times and an empty
mapping is returned, and for lambda_home = 0 (violating lambda_home > 0) an
ordinary normalized mapping is returned. -/
theorem C3_theorem :
    (∀ N : ℤ, N < 0 → chaves N = []) ∧
    calcular_probabilidades_dixon_coles 0 1 0 0 (0, 0) = 1 := by
  constructor
  · intro N hN
    have h0 : nVals N = 0 := by unfold nVals; omega
    simp [chaves, h0]
  · unfold calcular_probabilidades_dixon_coles dcTotal
    have h1 : nVals 0 = 1 := rfl
    rw [h1]
    simp only [Finset.sum_range_one]
    apply div_self
    unfold dcRaw
    rw [tau_zero_zero]
    have h2 : (1 : ℝ) - 0 * 1 * 0 = 1 := by norm_num
    rw [h2, mul_one]
    apply mul_ne_zero
    · simp [poissonPmf, Real.exp_zero]
    · exact ne_of_gt (poissonPmf_pos 1 (by norm_num) 0)

/-- Witness for C3 at max_goals = -1. -/
theorem C3_witness :
    chaves (-1) = [] ∧ calcular_probabilidades_dixon_coles 0 1 0 0 (0, 0) = 1 :=
  ⟨C3_theorem.1 (-1) (by norm_num), C3_theorem.2⟩

/-- A double sum over the square grid as a sum over the product Finset. -/
lemma double_sum_as_product (m : ℕ) (f : ℕ × ℕ → ℝ) :
    (∑ i ∈ Finset.range m, ∑ j ∈ Finset.range m, f (i, j))
      = ∑ p ∈ Finset.range m ×ˢ Finset.range m, f p :=
  (Finset.sum_product _ _ _).symm

/-- A single nonnegative cell is at most the accumulated total. -/
lemma cell_le_total (m : ℕ) (f : ℕ × ℕ → ℝ) (hf : ∀ p, 0 ≤ f p) (i j : ℕ)
    (hi : i < m) (hj : j < m) :
    f (i, j) ≤ ∑ x ∈ Finset.range m, ∑ y ∈ Finset.range m, f (x, y) := by
  rw [double_sum_as_product]
  exact Finset.single_le_sum (fun p _ => hf p)
    (Finset.mem_product.mpr ⟨Finset.mem_range.mpr hi, Finset.mem_range.mpr hj⟩)

lemma tau_nonneg (x y : ℕ) (a b rho : ℝ) (h1 : 0 ≤ 1 - a * b * rho)
    (h2 : 0 ≤ 1 + a * rho) (h3 : 0 ≤ 1 + b * rho) (h4 : 0 ≤ 1 - rho) :
    0 ≤ tau x y a b rho := by
  unfold tau
  split_ifs
  · exact h1
  · exact h2
  · exact h3
  · exact h4
  · norm_num

/-- C8 counterexample: the source does not clamp negative adjusted masses.
At lambda_home = lambda_away = 1, rho = 2, max_goals = 1 the cell (1,1) has
tau = 1 - 2 = -1, the total stays positive, and the returned "probability"
of (1,1) is negative (it equals -1/4). -/
theorem C8_counterexample : calcular_probabilidades_dixon_coles 1 1 2 1 (1, 1) < 0 := by
  unfold calcular_probabilidades_dixon_coles
  apply div_neg_of_neg_of_pos
  · unfold dcRaw
    rw [tau_one_one]
    have h := Real.exp_pos (-(1 : ℝ))
    simp only [poissonPmf, pow_one, Nat.factorial_one, Nat.cast_one]
    nlinarith
  · rw [dcTotal_eq_poissonTotal 1 1 2 1 (by norm_num)]
    exact poissonTotal_pos 1 1 1 (by norm_num) (by norm_num) (by norm_num)

/-- C8 amended: every independent-Poisson cell probability lies in [0,1];
the Dixon-Coles builder does not clamp, but whenever rho keeps all four tau
factors nonnegative (and max_goals is at least 1) every returned Dixon-Coles
cell probability also lies in [0,1]. -/
theorem C8_theorem :
    (∀ (a b : ℝ) (N : ℤ) (i j : ℕ), 0 < a → 0 < b →
      i < nVals N → j < nVals N →
      0 ≤ calcular_probabilidades_poisson a b N (i, j) ∧
        calcular_probabilidades_poisson a b N (i, j) ≤ 1) ∧
    (∀ (a b rho : ℝ) (N : ℤ) (i j : ℕ), 0 < a → 0 < b → 1 ≤ N →
      i < nVals N → j < nVals N →
      0 ≤ 1 - a * b * rho → 0 ≤ 1 + a * rho → 0 ≤ 1 + b * rho → 0 ≤ 1 - rho →
      0 ≤ calcular_probabilidades_dixon_coles a b rho N (i, j) ∧
        calcular_probabilidades_dixon_coles a b rho N (i, j) ≤ 1) := by
  constructor
  · intro a b N i j ha hb hi hj
    have hN : 0 ≤ N := by unfold nVals at hi; omega
    have htot := poissonTotal_pos a b N ha hb hN
    have hraw : ∀ p : ℕ × ℕ, 0 ≤ poissonRaw a b p := by
      intro p
      exact le_of_lt (mul_pos (poissonPmf_pos a ha p.1) (poissonPmf_pos b hb p.2))
    constructor
    · exact div_nonneg (hraw (i, j)) (le_of_lt htot)
    · rw [calcular_probabilidades_poisson, div_le_one htot]
      unfold poissonTotal
      exact cell_le_total (nVals N) (poissonRaw a b) hraw i j hi hj
  · intro a b rho N i j ha hb hN1 hi hj h1 h2 h3 h4
    have hN : 0 ≤ N := le_trans (by norm_num) hN1
    have htot : 0 < dcTotal a b rho N := by
      rw [dcTotal_eq_poissonTotal a b rho N hN1]
      exact poissonTotal_pos a b N ha hb hN
    have hraw : ∀ p : ℕ × ℕ, 0 ≤ dcRaw a b rho p := by
      intro p
      exact mul_nonneg
        (le_of_lt (mul_pos (poissonPmf_pos a ha p.1) (poissonPmf_pos b hb p.2)))
        (tau_nonneg p.1 p.2 a b rho h1 h2 h3 h4)
    constructor
    · exact div_nonneg (hraw (i, j)) (le_of_lt htot)
    · rw [calcular_probabilidades_dixon_coles, div_le_one htot]
      unfold dcTotal
      exact cell_le_total (nVals N) (dcRaw a b rho) hraw i j hi hj

/-- Witness for C8 at lambda_home = lambda_away = 1, max_goals = 5, cell
(2,3), Dixon-Coles with the source default rho = -0.1. -/
theorem C8_witness :
    (0 ≤ calcular_probabilidades_poisson 1 1 5 (2, 3) ∧
      calcular_probabilidades_poisson 1 1 5 (2, 3) ≤ 1) ∧
    (0 ≤ calcular_probabilidades_dixon_coles 1 1 (-(1/10)) 5 (2, 3) ∧
      calcular_probabilidades_dixon_coles 1 1 (-(1/10)) 5 (2, 3) ≤ 1) :=
  ⟨C8_theorem.1 1 1 5 2 3 (by norm_num) (by norm_num)
      (by unfold nVals; omega) (by unfold nVals; omega),
   C8_theorem.2 1 1 (-(1/10)) 5 2 3 (by norm_num) (by norm_num) (by norm_num)
      (by unfold nVals; omega) (by unfold nVals; omega)
      (by norm_num) (by norm_num) (by norm_num) (by norm_num)⟩

/-! The ordered (scoreline, probability) view.

Python builds each dict in key-insertion order (lexicographic: i outer, j
inner) and then applies sorted(items, key=item[1], reverse=True).  The Python sort is stable, so items with equal probability keep their insertion order;
since insertion order is lexicographic on keys, the returned list is the
unique permutation of the items sorted by probability descending with ties
broken by lexicographically smaller key first.  itemLeP is that total order
and the view is modelled as a merge sort by it. -/

/-- Probability descending; on equal probabilities, lexicographically
smaller key (= earlier dict insertion) first. -/
abbrev itemLeP (x y : (ℕ × ℕ) × ℝ) : Prop :=
  y.2 < x.2 ∨ (x.2 = y.2 ∧ (x.1.1 < y.1.1 ∨ (x.1.1 = y.1.1 ∧ x.1.2 ≤ y.1.2)))

noncomputable def itemLe (x y : (ℕ × ℕ) × ℝ) : Bool := decide (itemLeP x y)

lemma itemLe_eq_true_iff (x y : (ℕ × ℕ) × ℝ) : itemLe x y = true ↔ itemLeP x y := by
  simp [itemLe]

lemma itemLeP_trans (x y z : (ℕ × ℕ) × ℝ) (h1 : itemLeP x y) (h2 : itemLeP y z) :
    itemLeP x z := by
  rcases h1 with h1 | ⟨he1, hl1⟩
  · rcases h2 with h2 | ⟨he2, hl2⟩
    · exact Or.inl (lt_trans h2 h1)
    · exact Or.inl (he2 ▸ h1)
  · rcases h2 with h2 | ⟨he2, hl2⟩
    · exact Or.inl (by rw [he1]; exact h2)
    · exact Or.inr ⟨he1.trans he2, by omega⟩

lemma itemLeP_total (x y : (ℕ × ℕ) × ℝ) : itemLeP x y ∨ itemLeP y x := by
  rcases lt_trichotomy x.2 y.2 with h | h | h
  · exact Or.inr (Or.inl h)
  · have hlex : (x.1.1 < y.1.1 ∨ (x.1.1 = y.1.1 ∧ x.1.2 ≤ y.1.2)) ∨
        (y.1.1 < x.1.1 ∨ (y.1.1 = x.1.1 ∧ y.1.2 ≤ x.1.2)) := by omega
    rcases hlex with hl | hl
    · exact Or.inl (Or.inr ⟨h, hl⟩)
    · exact Or.inr (Or.inr ⟨h.symm, hl⟩)
  · exact Or.inl (Or.inl h)

/-- probabilidades.items() of calcular_probabilidades_poisson, in dict
insertion order. -/
noncomputable def itens_poisson (a b : ℝ) (N : ℤ) : List ((ℕ × ℕ) × ℝ) :=
  (chaves N).map (fun k => (k, calcular_probabilidades_poisson a b N k))

/-- The probabilidades_ordenadas view returned by
calcular_probabilidades_poisson. -/
noncomputable def ordenadas_poisson (a b : ℝ) (N : ℤ) : List ((ℕ × ℕ) × ℝ) :=
  (itens_poisson a b N).mergeSort itemLe

/-- probabilidades.items() of calcular_probabilidades_dixon_coles, in dict
insertion order. -/
noncomputable def itens_dixon_coles (a b rho : ℝ) (N : ℤ) : List ((ℕ × ℕ) × ℝ) :=
  (chaves N).map (fun k => (k, calcular_probabilidades_dixon_coles a b rho N k))

/-- The probabilidades_ordenadas view returned by
calcular_probabilidades_dixon_coles. -/
noncomputable def ordenadas_dixon_coles (a b rho : ℝ) (N : ℤ) : List ((ℕ × ℕ) × ℝ) :=
  (itens_dixon_coles a b rho N).mergeSort itemLe

lemma pairwise_mergeSort_itemLe (l : List ((ℕ × ℕ) × ℝ)) :
    (l.mergeSort itemLe).Pairwise itemLeP := by
  have h := List.sorted_mergeSort
    (fun a b c hab hbc => (itemLe_eq_true_iff a c).mpr
      (itemLeP_trans a b c ((itemLe_eq_true_iff a b).mp hab)
        ((itemLe_eq_true_iff b c).mp hbc)))
    (fun a b => by
      rw [Bool.or_eq_true, itemLe_eq_true_iff, itemLe_eq_true_iff]
      exact itemLeP_total a b)
    l
  exact h.imp (fun hab => (itemLe_eq_true_iff _ _).mp hab)

/-- In a list that is Pairwise for two relations at once, any two distinct
members are related by both relations in the same direction. -/
lemma pairwise_par_ordem {α : Type} (R S : α → α → Prop) :
    ∀ (l : List α), l.Pairwise R → l.Pairwise S →
      ∀ x y, x ∈ l → y ∈ l → x ≠ y →
        (R x y ∧ S x y) ∨ (R y x ∧ S y x) := by
  intro l
  induction l with
  | nil => intro _ _ x y hx _ _; simp at hx
  | cons a tl ih =>
    intro hR hS x y hx hy hxy
    rcases List.pairwise_cons.mp hR with ⟨hRa, hRtl⟩
    rcases List.pairwise_cons.mp hS with ⟨hSa, hStl⟩
    rcases List.mem_cons.mp hx with rfl | hx2
    · rcases List.mem_cons.mp hy with rfl | hy2
      · exact absurd rfl hxy
      · exact Or.inl ⟨hRa y hy2, hSa y hy2⟩
    · rcases List.mem_cons.mp hy with rfl | hy2
      · exact Or.inr ⟨hRa x hx2, hSa x hx2⟩
      · exact ih hRtl hStl x y hx2 hy2 hxy

/-- Modelled from the spec for comparison: the tie-break order the claim
asserts - probability descending, ties by lower combined goal count, then
lower home-goal count. -/
abbrev specLe (x y : (ℕ × ℕ) × ℝ) : Prop :=
  y.2 < x.2 ∨ (x.2 = y.2 ∧ (x.1.1 + x.1.2 < y.1.1 + y.1.2 ∨
    (x.1.1 + x.1.2 = y.1.1 + y.1.2 ∧ x.1.1 ≤ y.1.1)))

/-- C7 counterexample: with lambda_home = lambda_away = 1 and max_goals = 2
the cells (1,2) and (2,0) have the same probability, and the stable sort
keeps (1,2) (inserted earlier) before (2,0); the claimed tie-break by lower
combined goal count would put (2,0) (2 goals) before (1,2) (3 goals), so the
returned order violates the claimed order. -/
theorem C7_counterexample :
    ¬ (ordenadas_poisson 1 1 2).Pairwise specLe := by
  intro hspec
  have hperm : (ordenadas_poisson 1 1 2).Perm (itens_poisson 1 1 2) :=
    List.mergeSort_perm _ _
  have hsorted : (ordenadas_poisson 1 1 2).Pairwise itemLeP :=
    pairwise_mergeSort_itemLe _
  have hx : (((1, 2), calcular_probabilidades_poisson 1 1 2 (1, 2)))
      ∈ ordenadas_poisson 1 1 2 := by
    rw [hperm.mem_iff]
    exact List.mem_map.mpr ⟨(1, 2), by decide, rfl⟩
  have hy : (((2, 0), calcular_probabilidades_poisson 1 1 2 (2, 0)))
      ∈ ordenadas_poisson 1 1 2 := by
    rw [hperm.mem_iff]
    exact List.mem_map.mpr ⟨(2, 0), by decide, rfl⟩
  have heq : calcular_probabilidades_poisson 1 1 2 (1, 2)
      = calcular_probabilidades_poisson 1 1 2 (2, 0) := by
    unfold calcular_probabilidades_poisson
    congr 1
    unfold poissonRaw poissonPmf
    simp [Nat.factorial]
    ring
  have hne : ((((1, 2), calcular_probabilidades_poisson 1 1 2 (1, 2)))
      : (ℕ × ℕ) × ℝ) ≠ ((2, 0), calcular_probabilidades_poisson 1 1 2 (2, 0)) := by
    intro h
    have h2 : ((1, 2) : ℕ × ℕ) = (2, 0) := congrArg Prod.fst h
    simp at h2
  rcases pairwise_par_ordem itemLeP specLe _ hsorted hspec _ _ hx hy hne with
    ⟨_, hS⟩ | ⟨hR, _⟩
  · rcases hS with hlt | ⟨_, hcomb⟩
    · rw [heq] at hlt
      exact lt_irrefl _ hlt
    · simp only at hcomb
      omega
  · rcases hR with hlt | ⟨_, hlex⟩
    · rw [heq] at hlt
      exact lt_irrefl _ hlt
    · simp only at hlex
      omega

/-- C7 amended: the ordered view of either builder is a permutation of the
grid items that is sorted by probability descending, with equal
probabilities kept in dict insertion order, i.e. ties are broken by lower
home-goal count first and then lower away-goal count (not by lower combined
goal count). -/
theorem C7_theorem (a b rho : ℝ) (N : ℤ) :
    ((ordenadas_poisson a b N).Perm (itens_poisson a b N) ∧
      (ordenadas_poisson a b N).Pairwise itemLeP) ∧
    ((ordenadas_dixon_coles a b rho N).Perm (itens_dixon_coles a b rho N) ∧
      (ordenadas_dixon_coles a b rho N).Pairwise itemLeP) :=
  ⟨⟨List.mergeSort_perm _ _, pairwise_mergeSort_itemLe _⟩,
   ⟨List.mergeSort_perm _ _, pairwise_mergeSort_itemLe _⟩⟩

/-! The Monte Carlo simulator.

simular_monte_carlo draws from the numpy process-global random stream: it has
no rng parameter at all.  The global stream is modelled as an explicit
function from draw position to uniform value.
np.random.choice(len(placares), size=n_simulacoes, p=probabilidades)
consumes draws 0..n-1 and picks, for uniform u, the first index whose
cumulative probability exceeds u (searchsorted side right on the cumulative
sums); the per-sample np.random.random() coin for gol_1_tempo consumes
draws n..2n-1 (the left operand of the Python conjunction is evaluated on
every iteration).  A successive call starts reading the global stream where
the previous call stopped, at offset 2n. -/

structure ResultadoSimulacao where
  vitoria_casa : ℝ
  empate : ℝ
  vitoria_visitante : ℝ
  over_2_5 : ℝ
  btts : ℝ
  gol_1_tempo : ℝ

/-- numpy cumsum, with running accumulator. -/
noncomputable def cumsum : List ℝ → ℝ → List ℝ
  | [], _ => []
  | p :: ps, acc => (acc + p) :: cumsum ps (acc + p)

/-- numpy searchsorted with side right on a nondecreasing list: the number
of leading entries that are at most u. -/
noncomputable def searchsorted (cdf : List ℝ) (u : ℝ) : ℕ :=
  (cdf.takeWhile (fun c => decide (c ≤ u))).length

/-- The (scoreline, probability) items the simulator samples from: the dict
view of the chosen builder at the source defaults (max_gols = 5). -/
noncomputable def placares_e_probs (a b rho : ℝ) (udc : Bool) :
    List ((ℕ × ℕ) × ℝ) :=
  if udc then ordenadas_dixon_coles a b rho 5 else ordenadas_poisson a b 5

/-- One categorical draw: placares[searchsorted(cumsum(probabilidades), u)]. -/
noncomputable def amostra (itens : List ((ℕ × ℕ) × ℝ)) (u : ℝ) : ℕ × ℕ :=
  (itens.getD (searchsorted (cumsum (itens.map (fun it => it.2)) 0) u)
    ((0, 0), 0)).1

/-- The sampled scorelines paired with their gol_1_tempo coin draws. -/
noncomputable def paresSim (a b : ℝ) (n : ℕ) (rho : ℝ) (udc : Bool)
    (s : ℕ → ℝ) : List ((ℕ × ℕ) × ℝ) :=
  (List.range n).map
    (fun k => (amostra (placares_e_probs a b rho udc) (s k), s (n + k)))

/-- A tally over the samples, as the real count of hits. -/
noncomputable def contar (l : List ((ℕ × ℕ) × ℝ))
    (p : (ℕ × ℕ) × ℝ → Bool) : ℝ :=
  ((l.filter p).length : ℝ)

/-- simular_monte_carlo, with the global numpy stream passed explicitly. -/
noncomputable def simular_monte_carlo (a b : ℝ) (n : ℕ) (rho : ℝ)
    (udc : Bool) (s : ℕ → ℝ) : ResultadoSimulacao where
  vitoria_casa :=
    contar (paresSim a b n rho udc s) (fun p => decide (p.1.2 < p.1.1)) / (n : ℝ)
  empate :=
    contar (paresSim a b n rho udc s) (fun p => decide (p.1.1 = p.1.2)) / (n : ℝ)
  vitoria_visitante :=
    contar (paresSim a b n rho udc s) (fun p => decide (p.1.1 < p.1.2)) / (n : ℝ)
  over_2_5 :=
    contar (paresSim a b n rho udc s)
      (fun p => decide ((2.5 : ℝ) < ((p.1.1 : ℝ) + (p.1.2 : ℝ)))) / (n : ℝ)
  btts :=
    contar (paresSim a b n rho udc s)
      (fun p => decide (0 < p.1.1 ∧ 0 < p.1.2)) / (n : ℝ)
  gol_1_tempo :=
    contar (paresSim a b n rho udc s)
      (fun p => decide (p.2 < (0.5 : ℝ) ∧ 0 < p.1.1 + p.1.2)) / (n : ℝ)

/-- Two successive simulator calls reading the shared global stream: the
second starts at the offset the first consumed (2n draws). -/
noncomputable def chamadas_sucessivas (a b : ℝ) (n : ℕ) (rho : ℝ)
    (udc : Bool) (s : ℕ → ℝ) : ResultadoSimulacao × ResultadoSimulacao :=
  (simular_monte_carlo a b n rho udc s,
   simular_monte_carlo a b n rho udc (fun k => s (k + 2 * n)))

/-- A concrete global-stream state for the counterexample. -/
noncomputable def fluxoExemplo : ℕ → ℝ :=
  fun k => if k = 1 then 3 / 10 else if k = 3 then 7 / 10 else 0

lemma paresSim_congr (a b : ℝ) (n : ℕ) (rho : ℝ) (udc : Bool)
    (s1 s2 : ℕ → ℝ) (h : ∀ k < 2 * n, s1 k = s2 k) :
    paresSim a b n rho udc s1 = paresSim a b n rho udc s2 := by
  unfold paresSim
  apply List.map_congr_left
  intro k hk
  have hk2 : k < n := List.mem_range.mp hk
  rw [h k (by omega), h (n + k) (by omega)]

/-- C4 amended: the simulator has no rng parameter and reads the
process-global numpy stream; modelling that stream as explicitly threaded
state, the result is a deterministic function of the parameters and the 2n
stream entries the call consumes: streams that agree on those entries give
identical results. -/
theorem C4_theorem (a b : ℝ) (n : ℕ) (rho : ℝ) (udc : Bool) (s1 s2 : ℕ → ℝ)
    (h : ∀ k < 2 * n, s1 k = s2 k) :
    simular_monte_carlo a b n rho udc s1 = simular_monte_carlo a b n rho udc s2 := by
  unfold simular_monte_carlo
  rw [paresSim_congr a b n rho udc s1 s2 h]

/-- Witness for C4 on identical streams. -/
theorem C4_witness :
    simular_monte_carlo 1 1 1 0 false (fun _ => 0)
      = simular_monte_carlo 1 1 1 0 false (fun _ => 0) :=
  C4_theorem 1 1 1 0 false _ _ (fun _ _ => rfl)

lemma prob_poisson_pos (a b : ℝ) (N : ℤ) (ha : 0 < a) (hb : 0 < b)
    (hN : 0 ≤ N) (ij : ℕ × ℕ) :
    0 < calcular_probabilidades_poisson a b N ij := by
  unfold calcular_probabilidades_poisson poissonRaw
  exact div_pos (mul_pos (poissonPmf_pos a ha ij.1) (poissonPmf_pos b hb ij.2))
    (poissonTotal_pos a b N ha hb hN)

/-- The sorted list the simulator samples from at lambda_casa = 3/2,
lambda_visitante = 1/2 starts with a positive-probability scoreline that is
not 0-0 (its probability strictly exceeds the 0-0 probability, since the
(1,0) cell does). -/
lemma cabeca_ordenadas :
    ∃ h tl, ordenadas_poisson (3/2) (1/2) 5 = h :: tl ∧ 0 < h.2 ∧ h.1 ≠ (0, 0) := by
  have hperm : (ordenadas_poisson (3/2) (1/2) 5).Perm (itens_poisson (3/2) (1/2) 5) :=
    List.mergeSort_perm _ _
  have hne : ordenadas_poisson (3/2) (1/2) 5 ≠ [] := by
    intro hnil
    have hlen := hperm.length_eq
    rw [hnil] at hlen
    unfold itens_poisson at hlen
    rw [List.length_map] at hlen
    have h36 : (chaves 5).length = 36 := by decide
    rw [h36] at hlen
    simp at hlen
  obtain ⟨h, tl, hL⟩ := List.exists_cons_of_ne_nil hne
  have hmem : h ∈ itens_poisson (3/2) (1/2) 5 := by
    rw [← hperm.mem_iff, hL]
    exact List.mem_cons_self _ _
  obtain ⟨k, hk, hkeq⟩ := List.mem_map.mp hmem
  refine ⟨h, tl, hL, ?_, ?_⟩
  · rw [← hkeq]
    exact prob_poisson_pos (3/2) (1/2) 5 (by norm_num) (by norm_num) (by norm_num) k
  · intro h00
    have hhead : h = ((0, 0), calcular_probabilidades_poisson (3/2) (1/2) 5 (0, 0)) := by
      have hk0 : k = (0, 0) := by
        have hk1 : k = h.1 := by rw [← hkeq]
        rw [hk1, h00]
      rw [← hkeq, hk0]
    have hx10 : ((1, 0), calcular_probabilidades_poisson (3/2) (1/2) 5 (1, 0))
        ∈ ordenadas_poisson (3/2) (1/2) 5 := by
      rw [hperm.mem_iff]
      exact List.mem_map.mpr ⟨(1, 0), by decide, rfl⟩
    have hx10tl : ((1, 0), calcular_probabilidades_poisson (3/2) (1/2) 5 (1, 0)) ∈ tl := by
      rw [hL] at hx10
      rcases List.mem_cons.mp hx10 with heq | htl
      · rw [hhead] at heq
        have hkk : ((1, 0) : ℕ × ℕ) = (0, 0) := congrArg Prod.fst heq
        simp at hkk
      · exact htl
    have hsorted : (ordenadas_poisson (3/2) (1/2) 5).Pairwise itemLeP :=
      pairwise_mergeSort_itemLe _
    rw [hL] at hsorted
    have hle : itemLeP h ((1, 0), calcular_probabilidades_poisson (3/2) (1/2) 5 (1, 0)) :=
      (List.pairwise_cons.mp hsorted).1 _ hx10tl
    have hlt : calcular_probabilidades_poisson (3/2) (1/2) 5 (0, 0)
        < calcular_probabilidades_poisson (3/2) (1/2) 5 (1, 0) := by
      unfold calcular_probabilidades_poisson
      rw [div_lt_div_iff_of_pos_right
        (poissonTotal_pos (3/2) (1/2) 5 (by norm_num) (by norm_num) (by norm_num))]
      unfold poissonRaw poissonPmf
      simp only [pow_zero, pow_one, Nat.factorial_zero, Nat.factorial_one,
        Nat.cast_one, one_mul, div_one]
      nlinarith [Real.exp_pos (-(3/2) : ℝ), Real.exp_pos (-(1/2) : ℝ),
        mul_pos (Real.exp_pos (-(3/2) : ℝ)) (Real.exp_pos (-(1/2) : ℝ))]
    rw [hhead] at hle
    rcases hle with hlt2 | ⟨heq2, _⟩
    · simp only at hlt2
      linarith
    · simp only at heq2
      linarith

/-- With u = 0 the categorical draw returns the first listed scoreline
whenever its probability is positive. -/
lemma amostra_zero (itens : List ((ℕ × ℕ) × ℝ)) (h : (ℕ × ℕ) × ℝ)
    (tl : List ((ℕ × ℕ) × ℝ)) (hL : itens = h :: tl) (hpos : 0 < h.2) :
    amostra itens 0 = h.1 := by
  subst hL
  unfold amostra searchsorted
  simp only [List.map_cons, cumsum]
  have hfalse : (decide (((0 : ℝ) + h.2) ≤ 0)) = false := by
    rw [decide_eq_false_iff_not]
    push_neg
    linarith
  rw [List.takeWhile_cons, hfalse]
  simp [List.getD_cons_zero]

/-- C4 counterexample: two successive calls with identical parameters read
different positions of the shared global stream and return different
results (the gol_1_tempo coin flips differ), so identical parameters alone
do not reproduce results: the caller cannot supply the randomness source. -/
theorem C4_counterexample :
    (chamadas_sucessivas (3/2) (1/2) 1 (-(1/10)) false fluxoExemplo).1 ≠
      (chamadas_sucessivas (3/2) (1/2) 1 (-(1/10)) false fluxoExemplo).2 := by
  obtain ⟨h, tl, hL, hpos, hne00⟩ := cabeca_ordenadas
  have hitens : placares_e_probs (3/2) (1/2) (-(1/10)) false
      = ordenadas_poisson (3/2) (1/2) 5 := by
    unfold placares_e_probs
    simp
  have hgoals : 0 < h.1.1 + h.1.2 := by
    by_contra hz
    push_neg at hz
    apply hne00
    have hzz : h.1.1 = 0 ∧ h.1.2 = 0 := by omega
    exact Prod.ext hzz.1 hzz.2
  have hs0 : fluxoExemplo 0 = 0 := by unfold fluxoExemplo; norm_num
  have hs1 : fluxoExemplo (1 + 0) = 3 / 10 := by unfold fluxoExemplo; norm_num
  have hs2 : fluxoExemplo (0 + 2 * 1) = 0 := by unfold fluxoExemplo; norm_num
  have hs3 : fluxoExemplo (1 + 0 + 2 * 1) = 7 / 10 := by unfold fluxoExemplo; norm_num
  have hr1 : List.range 1 = [0] := by decide
  have hp1 : paresSim (3/2) (1/2) 1 (-(1/10)) false fluxoExemplo
      = [(h.1, 3 / 10)] := by
    unfold paresSim
    rw [hr1]
    simp only [List.map_cons, List.map_nil]
    rw [hitens, hs0, hs1, amostra_zero _ h tl hL hpos]
  have hp2 : paresSim (3/2) (1/2) 1 (-(1/10)) false (fun k => fluxoExemplo (k + 2 * 1))
      = [(h.1, 7 / 10)] := by
    unfold paresSim
    rw [hr1]
    simp only [List.map_cons, List.map_nil]
    rw [hitens, hs2, hs3, amostra_zero _ h tl hL hpos]
  intro heq
  have hg := congrArg ResultadoSimulacao.gol_1_tempo heq
  unfold chamadas_sucessivas simular_monte_carlo at hg
  simp only at hg
  rw [hp1, hp2] at hg
  unfold contar at hg
  norm_num [List.filter_cons, hgoals] at hg
  omega

end ModelosEstatisticos
